import Mathlib

/-!
Verification development for the featurizer module of the omesa/profl
repository (src/profl/featurizer.py).  The Python code is shallowly
embedded: every extractor becomes a Lean structure holding exactly the
attributes the Python object carries, every method becomes a function on
that structure, and operations that can raise a Python exception return
an Except value.  Machine behaviour that the claims depend on (dict
insertion order, stable sorting, numpy append semantics, attribute
errors) is modelled explicitly and documented next to each definition.
-/

/-- Python exception kinds that the embedded code can raise. -/
inductive PyError where
  | attributeError
  | typeError
  | keyError
  | valueError
deriving DecidableEq, Repr

/-- Tagged token tuple (surface, lemma-or-normalized, pos-tag, sentence-index):
the four positions of the frog tuples consumed by the featurizer.  Field w is
tuple index 0, l index 1, p index 2, s index 3. -/
structure Tok where
  w : String
  l : String
  p : String
  s : Nat
deriving DecidableEq, Repr

/-- Instance of the corpus stream: a (label, raw, frog) triple. -/
structure Inst where
  label : String
  raw : String
  frog : List Tok
deriving DecidableEq, Repr

/-- Numeric matrix, a list of rows.  Numpy arrays hold floats; all values the
code ever stores are integers or sums of lexicon weights, modelled in Rat. -/
abbrev Mat := List (List Rat)

/-! ## Ordered dictionaries

Python 3 dicts preserve insertion order.  They are modelled as association
lists with unique keys kept in insertion order. -/

/-- Keys of an association list, in order. -/
def keysOf (d : List (String × Nat)) : List String :=
  d.map Prod.fst

/-- Counting one element into an ordered frequency dictionary: an existing key
keeps its position and gains one, a new key is appended at the end.  This is
exactly how collections.Counter builds its underlying dict. -/
def insKey (d : List (String × Nat)) (s : String) : List (String × Nat) :=
  if d.any (fun p => p.1 == s) then
    d.map (fun p => if p.1 == s then (p.1, p.2 + 1) else p)
  else
    d ++ [(s, 1)]

/-- Modelled from the repository documentation: freq_dict lives in the utils
module, which is absent from src; the docstring of FuncWords.func_freq in
featurizer.py documents it as returning a Counter, i.e. a frequency
dictionary with keys in first-occurrence order. -/
def freq_dict (l : List String) : List (String × Nat) :=
  l.foldl insKey []

/-- Writing one pair of the update argument into the dict: an existing key
keeps its position and its value is overwritten, a new key is appended. -/
def updKey (d : List (String × Nat)) (kv : String × Nat) : List (String × Nat) :=
  if d.any (fun p => p.1 == kv.1) then
    d.map (fun p => if p.1 == kv.1 then (p.1, kv.2) else p)
  else
    d ++ [kv]

/-- Python dict.update: keys already present are overwritten in place (the
stored count is replaced, not added), new keys are appended in the order of
the update argument. -/
def dictUpdate (d u : List (String × Nat)) : List (String × Nat) :=
  u.foldl updKey d

/-- Python dct.get(f, 0): the stored value, or 0 for a missing key. -/
def dget (d : List (String × Nat)) (f : String) : Nat :=
  match d.find? (fun p => p.1 == f) with
  | some p => p.2
  | none => 0

/-! ## The feats attribute

Self.feats of the count-based extractors is a dict while fitting and becomes
a plain list of keys after close_fit; the two phases are a sum type. -/

inductive FeatsObj where
  | dict (d : List (String × Nat))
  | strlist (l : List String)
deriving DecidableEq, Repr

/-- Iterating self.feats in a for-comprehension: iterating a dict yields its
keys in insertion order, iterating a list yields its items. -/
def featsIter : FeatsObj → List String
  | .dict d => keysOf d
  | .strlist l => l

/-! ## Stable descending sort

Python sorted(items, reverse=True, key=operator.itemgetter(1)) sorts by the
stored count, descending, and is stable: items with equal counts keep their
original (dict insertion) order.  Any stable sort realises this
specification; an insertion sort is used here. -/

/-- Insert one pair into a descending-by-value list, after every element of
greater or equal value, so that earlier-processed equal elements stay first. -/
def insertDesc (p : String × Nat) : List (String × Nat) → List (String × Nat)
  | [] => [p]
  | q :: rest => if p.2 ≤ q.2 then q :: insertDesc p rest else p :: q :: rest

/-- Stable sort by value, descending, as performed in Ngrams.close_fit. -/
def sortDescByVal (d : List (String × Nat)) : List (String × Nat) :=
  d.foldl (fun acc p => insertDesc p acc) []

/-- Python slice l[:k] where k may be None: None keeps the whole list. -/
def takeOpt : Option Nat → List String → List String
  | none, l => l
  | some k, l => l.take k

/-! ## Ngrams extractor -/

/-- State of an Ngrams object.  The name attribute is level + "_ngram" and
self.i is 0 for token level, 2 otherwise, both fixed by the constructor from
level, so they are recomputed from level instead of being stored. -/
structure NgramsState where
  level : String
  n_list : List Nat
  max_feats : Option Nat
  feats : FeatsObj
  instances : Option (List (List Nat))
deriving DecidableEq, Repr

/-- Constructor Ngrams(level, n_list, max_feats): feats starts as an empty
dict and instances as None. -/
def Ngrams.mkInit (level : String) (n_list : List Nat) (max_feats : Option Nat) :
    NgramsState :=
  { level := level, n_list := n_list, max_feats := max_feats,
    feats := .dict [], instances := none }

/-- Index self.i: 0 selects the surface form, otherwise 2 selects the pos tag. -/
def ngramIndex (level : String) : Nat :=
  if level = "token" then 0 else 2

/-- Tuple indexing x[i] for the two indices the code uses. -/
def tokAt (i : Nat) (t : Tok) : String :=
  if i = 0 then t.w else t.p

/-- Symbol stream the n-grams run over: the characters of raw for char level,
otherwise the i-th tuple field of each frog token. -/
def ngramNeedle (level : String) (raw : String) (frog : List Tok) : List String :=
  if level = "char" then raw.toList.map (fun c => String.mk [c])
  else frog.map (tokAt (ngramIndex level))

/-- Method find_ngrams: pad the list with one empty symbol on each side and
take all windows of size n.  Python zip over n shifted copies yields
len(inp) - n + 1 windows for n bounded by the length and none otherwise;
zip of zero streams yields nothing. -/
def find_ngrams (input_list : List String) (n : Nat) : List (List String) :=
  let inp := [""] ++ input_list ++ [""]
  if n = 0 then []
  else (List.range (inp.length + 1 - n)).map (fun i => (inp.drop i).take n)

/-- Feature key of one window: level, then a dash, then the window symbols
joined by underscores. -/
def ngramKey (level : String) (item : List String) : String :=
  level ++ "-" ++ String.intercalate "_" item

/-- All keys contributed by one instance for one n. -/
def ngramKeys (level : String) (needle : List String) (n : Nat) : List String :=
  (find_ngrams needle n).map (ngramKey level)

/-- Body shared by fit and transform: fold the per-n frequency dictionaries
into a dict with dict.update. -/
def ngramAccum (level : String) (nl : List Nat) (needle : List String)
    (d0 : List (String × Nat)) : List (String × Nat) :=
  nl.foldl (fun acc n => dictUpdate acc (freq_dict (ngramKeys level needle n))) d0

/-- Method Ngrams.fit: updates the feats dict in place.  After close_fit the
attribute is a plain list, which has no update method, so Python would raise
AttributeError. -/
def Ngrams.fit (st : NgramsState) (raw : String) (frog : List Tok) :
    Except PyError NgramsState :=
  match st.feats with
  | .strlist _ => .error .attributeError
  | .dict d =>
      .ok { st with feats := FeatsObj.dict (ngramAccum st.level st.n_list (ngramNeedle st.level raw frog) d) }

/-- Method Ngrams.close_fit: feats becomes the list of keys sorted by stored
count descending (stable) and truncated by the max_feats slice.  Calling it
again would invoke items() on a list, an AttributeError. -/
def Ngrams.close_fit (st : NgramsState) : Except PyError NgramsState :=
  match st.feats with
  | .strlist _ => .error .attributeError
  | .dict d =>
      .ok { st with feats := .strlist (takeOpt st.max_feats ((sortDescByVal d).map Prod.fst)) }

/-- Local dct built by Ngrams.transform for one instance. -/
def ngramInstDict (st : NgramsState) (raw : String) (frog : List Tok) :
    List (String × Nat) :=
  ngramAccum st.level st.n_list (ngramNeedle st.level raw frog) []

/-- Row appended by Ngrams.transform: dct.get(f, 0) for f in self.feats. -/
def ngramRow (st : NgramsState) (raw : String) (frog : List Tok) : List Nat :=
  (featsIter st.feats).map (fun f => dget (ngramInstDict st raw frog) f)

/-- Method Ngrams.transform: Featurizer.empty_inst initialises instances to a
(0, len(feats)) array when it is still None, then np.append stacks the new
row below the existing ones.  The method never raises: missing keys default
to 0 and extra instance keys are simply not looked up. -/
def Ngrams.transform (st : NgramsState) (raw : String) (frog : List Tok) :
    NgramsState :=
  { st with instances := some (st.instances.getD [] ++ [ngramRow st raw frog]) }

/-! ## FuncWords extractor -/

structure FuncWordsState where
  feats : FeatsObj
  instances : Option (List (List Nat))
deriving DecidableEq, Repr

/-- Constructor FuncWords(): feats an empty dict, instances None. -/
def FuncWords.mkInit : FuncWordsState :=
  { feats := .dict [], instances := none }

/-- Closed set of function-word tag families (the keys of the functors dict). -/
def functors : List String := ["VNW", "LID", "VZ", "BW", "TW", "VG"]

/-- Python item[2].split("(")[0]: the tag text before the first opening paren. -/
def tagHead (s : String) : String :=
  String.mk (s.toList.takeWhile (fun c => c ≠ '('))

/-- Method func_freq: frequency dictionary of the surface forms whose tag
family is in functors. -/
def func_freq (frog : List Tok) : List (String × Nat) :=
  freq_dict ((frog.filter (fun t => tagHead t.p ∈ functors)).map (fun t => t.w))

/-- Method FuncWords.fit: dict update with the instance frequencies; a keys
view (the post-close_fit value) has no update method. -/
def FuncWords.fit (st : FuncWordsState) (raw : String) (frog : List Tok) :
    Except PyError FuncWordsState :=
  match st.feats with
  | .strlist _ => .error .attributeError
  | .dict d => .ok { st with feats := .dict (dictUpdate d (func_freq frog)) }

/-- Method FuncWords.close_fit: feats becomes feats.keys(), the keys in dict
insertion order; a list has no keys method. -/
def FuncWords.close_fit (st : FuncWordsState) : Except PyError FuncWordsState :=
  match st.feats with
  | .strlist _ => .error .attributeError
  | .dict d => .ok { st with feats := .strlist (keysOf d) }

/-- Row appended by FuncWords.transform. -/
def funcRow (st : FuncWordsState) (frog : List Tok) : List Nat :=
  (featsIter st.feats).map (fun f => dget (func_freq frog) f)

/-- Method FuncWords.transform: same empty_inst plus np.append pattern as
Ngrams.transform; never raises. -/
def FuncWords.transform (st : FuncWordsState) (raw : String) (frog : List Tok) :
    FuncWordsState :=
  { st with instances := some (st.instances.getD [] ++ [funcRow st frog]) }

/-! ## TokenPCA extractor

The vectorizer and PCA submodels come from sklearn, an external library, so
their numeric behaviour is not embedded; what the claims need is the calling
discipline, so the state records the raw-data argument of every fit and
transform invocation.  The name attribute is the literal "token_pca". -/

structure TokenPCAState where
  fitCalls : List String
  transformCalls : List String
  feats : Option Bool
  instances : Option Mat
deriving DecidableEq, Repr

/-- Constructor TokenPCA(): feats is None and instances is None; no fit or
transform has happened yet. -/
def TokenPCA.mkInit : TokenPCAState :=
  { fitCalls := [], transformCalls := [], feats := none, instances := none }

/-- Method TokenPCA.fit(raw_data, frog_data): fits the vectorizer and the PCA
model on raw_data and sets feats to True.  The call is recorded. -/
def TokenPCA.fit (st : TokenPCAState) (raw_data : String) (frog_data : List Tok) :
    TokenPCAState :=
  { st with fitCalls := st.fitCalls ++ [raw_data], feats := some true }

/-- Method TokenPCA.close_fit: pass. -/
def TokenPCA.close_fit (st : TokenPCAState) : TokenPCAState :=
  st

/-- Method TokenPCA.transform: projects raw_data through the frozen models and
overwrites instances with the projected matrix, whose numeric content comes
from the external PCA model and is not modelled; no claim depends on it. -/
def TokenPCA.transform (st : TokenPCAState) (raw_data : String) (frog_data : List Tok) :
    TokenPCAState :=
  { st with transformCalls := st.transformCalls ++ [raw_data] }

/-! ## SentimentFeatures extractor -/

/-- State of a SentimentFeatures object: the pickled lexicon, keyed by
(word-or-lemma, pos-abbreviation) pairs, plus the instances array.  The
constructor sets no name attribute and the class has no close_fit method. -/
structure SentimentState where
  lexiconDict : List ((String × String) × Rat)
  instances : Option Mat
deriving DecidableEq, Repr

/-- Ordered pattern table token_dict of calculate_sentiment: regex source
text paired with the two pos abbreviations (for the surface form and for the
lemma).  OrderedDict iterates in insertion order. -/
def token_dict : List (String × String × String) :=
  [ ("SPEC\\(vreemd\\)", "f", "f"),
    ("BW\\(\\)", "b", "b"),
    ("N\\(", "n", "n"),
    ("TWS\\(\\)", "i", "i"),
    ("ADJ\\(", "a", "a"),
    ("WW\\((od|vd).*(,prenom|,vrij)", "a", "v"),
    ("WW\\((od|vd).*,nom", "n", "v"),
    ("WW\\(inf,nom", "n", "v"),
    ("WW\\(", "v", "v") ]

/-- Python re.search(regx, token) where token is the whole 4-tuple: re.search
requires a string or bytes argument, so passing the tuple raises TypeError
before any matching happens.  The source does exactly this. -/
def re_search_tok (regx : String) (token : Tok) : Except PyError Bool :=
  .error .typeError

/-- Python self.lexiconDict[token] with token the 4-tuple: the dict is keyed
by (string, string) pairs, so the tuple is never a key and the subscript
would raise KeyError. -/
def lexGetTok (d : List ((String × String) × Rat)) (token : Tok) : Except PyError Rat :=
  .error .keyError

/-- Inner loop of calculate_sentiment over the pattern table: on the first
regex match, membership of (word, param[0]) or (lemma, param[1]) is tested;
if found the weight dict[token] is added; either way the loop breaks.  The
tuple unpacking word, pos, lemma, sent_index names tuple position 1 pos and
position 2 lemma, so the lemma lookup uses field p of Tok. -/
def sentMatchOne (st : SentimentState) (token : Tok) (score : Rat) :
    List (String × String × String) → Except PyError Rat
  | [] => .ok score
  | (regx, param) :: rest => do
      let hit ← re_search_tok regx token
      if hit then
        if st.lexiconDict.any (fun e => e.1 == (token.w, param.1)) ||
           st.lexiconDict.any (fun e => e.1 == (token.p, param.2)) then do
          let w ← lexGetTok st.lexiconDict token
          .ok (score + w)
        else
          .ok score
      else
        sentMatchOne st token score rest

/-- Method calculate_sentiment: running sum of the per-token contributions,
starting from 0.0. -/
def calculate_sentiment (st : SentimentState) (inst : List Tok) :
    Except PyError Rat :=
  inst.foldlM (fun score token => sentMatchOne st token score token_dict) 0

/-- Method SentimentFeatures.fit: return self, a no-op. -/
def SentimentFeatures.fit (st : SentimentState) (raw : String) (frog : List Tok) :
    SentimentState :=
  st

/-- Method SentimentFeatures.transform: appends a single-column row holding
the sentiment score. -/
def SentimentFeatures.transform (st : SentimentState) (raw : String) (frog : List Tok) :
    Except PyError SentimentState := do
  let v ← calculate_sentiment st frog
  .ok { st with instances := some (st.instances.getD [] ++ [[v]]) }

/-! ## SimpleStats averages

Only the statistics the claims mention are embedded: the guarded flooding
average and the two unguarded averages.  Numpy np.mean of an empty list is
NaN (with a RuntimeWarning), not an exception; NaN is modelled as none. -/

/-- Numpy mean of a list of naturals: none models the NaN that numpy returns
on an empty slice; a nonempty list yields the exact rational mean. -/
def np_mean (l : List Nat) : Option Rat :=
  match l with
  | [] => none
  | _ => some ((l.sum : Rat) / (l.length : Rat))

/-- Method SimpleStats.avg_fl_len: explicitly guarded, an empty flooding list
yields 0.  Floodings are (run, character) pairs produced by the external
preprocessing helper; len(fl) is the length of the run string. -/
def avg_fl_len (floodings : List (String × String)) : Option Rat :=
  if floodings = [] then some 0
  else np_mean (floodings.map (fun fl => fl.1.length))

/-- Character class of the default regex_word pattern. -/
def wordCharOk (c : Char) : Bool :=
  c.isAlpha || c.isDigit || c == '-'

/-- Transcription of the default regex_word pattern, anchored at both ends: a
token made of letters, digits and hyphens that contains at least one letter. -/
def matchWordRegex (s : String) : Bool :=
  s.toList.all wordCharOk && s.toList.any Char.isAlpha

/-- Method SimpleStats.get_words with the default word pattern. -/
def get_words (tokens : List String) : List String :=
  tokens.filter matchWordRegex

/-- Method SimpleStats.avg_word_len: np.mean over the word lengths with no
guard, so an empty word list produces NaN. -/
def avg_word_len (words : List String) : Option Rat :=
  np_mean (words.map String.length)

/-- Counter over sentence indices, the same first-occurrence-ordered
frequency dictionary as freq_dict but over naturals. -/
def natCounter (l : List Nat) : List (Nat × Nat) :=
  l.foldl (fun d s => if d.any (fun p => p.1 == s) then d.map (fun p => if p.1 == s then (p.1, p.2 + 1) else p) else d ++ [(s, 1)]) []

/-- Method SimpleStats.avg_sent_length: np.mean over the values of
Counter(sent_nums) with no guard, so an empty token list produces NaN. -/
def avg_sent_length (sent_nums : List Nat) : Option Rat :=
  np_mean ((natCounter sent_nums).map Prod.snd)

/-! ## Helper objects and the Featurizer orchestrator -/

/-- One extractor object as held in the helpers collection. -/
inductive Helper where
  | ngrams (st : NgramsState)
  | funcWords (st : FuncWordsState)
  | tokenPCA (st : TokenPCAState)
  | sentiment (st : SentimentState)
deriving DecidableEq, Repr

/-- The space_based list of Featurizer.__init__, compared against helper.name. -/
def spaceBased : List String := ["TokenPCA", "Doc2Vec", "L-LDA"]

/-- Attribute helper.name: Ngrams objects carry level + "_ngram", FuncWords
carries "func_words", TokenPCA carries "token_pca".  SentimentFeatures sets
no name attribute, so the lookup raises AttributeError. -/
def Helper.nameAttr : Helper → Except PyError String
  | .ngrams st => .ok (st.level ++ "_ngram")
  | .funcWords _ => .ok "func_words"
  | .tokenPCA _ => .ok "token_pca"
  | .sentiment _ => .error .attributeError

/-- Dispatch of helper.fit(raw, frog). -/
def Helper.fitH : Helper → String → List Tok → Except PyError Helper
  | .ngrams st, raw, frog => (Ngrams.fit st raw frog).map Helper.ngrams
  | .funcWords st, raw, frog => (FuncWords.fit st raw frog).map Helper.funcWords
  | .tokenPCA st, raw, frog => .ok (.tokenPCA (TokenPCA.fit st raw frog))
  | .sentiment st, raw, frog => .ok (.sentiment (SentimentFeatures.fit st raw frog))

/-- Dispatch of helper.transform(raw, frog). -/
def Helper.transformH : Helper → String → List Tok → Except PyError Helper
  | .ngrams st, raw, frog => .ok (.ngrams (Ngrams.transform st raw frog))
  | .funcWords st, raw, frog => .ok (.funcWords (FuncWords.transform st raw frog))
  | .tokenPCA st, raw, frog => .ok (.tokenPCA (TokenPCA.transform st raw frog))
  | .sentiment st, raw, frog => (SentimentFeatures.transform st raw frog).map Helper.sentiment

/-- Dispatch of helper.close_fit(): SentimentFeatures has no such method, so
the call raises AttributeError. -/
def Helper.closeFitH : Helper → Except PyError Helper
  | .ngrams st => (Ngrams.close_fit st).map Helper.ngrams
  | .funcWords st => (FuncWords.close_fit st).map Helper.funcWords
  | .tokenPCA st => .ok (.tokenPCA (TokenPCA.close_fit st))
  | .sentiment _ => .error .attributeError

/-- Count matrices live in numpy float arrays; this reads them as rational
matrices. -/
def ratMat (m : List (List Nat)) : Mat :=
  m.map (fun r => r.map (fun x => (x : Rat)))

/-- Attribute helper.instances, as collected into submatrices.  The integer
count matrices of the count-based extractors are numpy float arrays, read
here as rational matrices. -/
def Helper.instAttr : Helper → Option Mat
  | .ngrams st => st.instances.map ratMat
  | .funcWords st => st.instances.map ratMat
  | .tokenPCA st => st.instances
  | .sentiment st => st.instances

/-- State of the Featurizer object.  X and Y are only ever passed to
np.append, which returns a fresh array that the code discards, so they never
change; they are kept to mirror the attribute set. -/
structure FeaturizerState where
  labels : List String
  helpers : List Helper
  X : List String
  Y : List String
deriving DecidableEq, Repr

/-- Mode discriminating the func argument of loop_helpers. -/
inductive FMode where
  | fit
  | transform
deriving DecidableEq, Repr

/-- Body of the helper loop inside the stream loop of loop_helpers: the name
attribute is read first (raising AttributeError for SentimentFeatures); a
space-based name only triggers the discarded np.append calls, leaving all
state unchanged; otherwise func(helper, raw, frog) runs the fit or transform
method of the helper. -/
def helperStep (mode : FMode) (raw : String) (frog : List Tok) (h : Helper) :
    Except PyError Helper := do
  let n ← Helper.nameAttr h
  if n ∈ spaceBased then
    pure h
  else
    match mode with
    | .fit => Helper.fitH h raw frog
    | .transform => Helper.transformH h raw frog

/-- Stream phase of loop_helpers: every instance is pushed through every
helper in collection order, and in transform mode the label is appended to
self.labels after the helpers ran. -/
def loopStream (mode : FMode) (fz : FeaturizerState) (stream : List Inst) :
    Except PyError FeaturizerState :=
  stream.foldlM (fun acc inst => do
    let hs ← acc.helpers.mapM (helperStep mode inst.raw inst.frog)
    pure { acc with helpers := hs,
                    labels := if mode = .transform then acc.labels ++ [inst.label] else acc.labels }) fz

/-- Close phase of loop_helpers in fit mode: helper.close_fit() on every
helper in collection order. -/
def loopClose (fz : FeaturizerState) : Except PyError FeaturizerState := do
  let hs ← fz.helpers.mapM Helper.closeFitH
  pure { fz with helpers := hs }

/-- Numpy np.hstack over the collected submatrices: all blocks must hold the
same number of rows, otherwise numpy raises ValueError; a still-None
instances attribute in the list also makes the stack fail.  Neither failure
path is reachable for fitted count-based helpers, whose row counts always
match the stream length. -/
def np_hstack (ms : List (Option Mat)) : Except PyError Mat :=
  match ms.mapM id with
  | none => .error .valueError
  | some [] => .error .valueError
  | some (m :: rest) =>
      if rest.all (fun x => x.length == m.length) then
        .ok (rest.foldl (fun a b => List.zipWith (fun r s => r ++ s) a b) m)
      else
        .error .valueError

/-- Method Featurizer.fit(stream): the stream phase with func_fit followed by
close_fit on every helper; loop_helpers returns None in this mode, so only
the updated state comes back. -/
def Featurizer.fit (fz : FeaturizerState) (stream : List Inst) :
    Except PyError FeaturizerState := do
  let fz1 ← loopStream .fit fz stream
  loopClose fz1

/-- Method Featurizer.transform(stream): the stream phase with
func_transform, then the submatrices of all helpers in collection order are
stacked horizontally.  The labels accumulate in self.labels; the matrix is
the return value. -/
def Featurizer.transform (fz : FeaturizerState) (stream : List Inst) :
    Except PyError (FeaturizerState × Mat) := do
  let fz1 ← loopStream .transform fz stream
  let X ← np_hstack (fz1.helpers.map Helper.instAttr)
  pure (fz1, X)

/-! ## Derived notions used by the verification -/

deriving instance DecidableEq for Except

/-- Helpers whose name is not space-based and whose transform appends one
count row per instance: the Ngrams and FuncWords objects. -/
def Helper.isCount : Helper → Bool
  | .ngrams st => decide ((st.level ++ "_ngram") ∉ spaceBased)
  | .funcWords _ => true
  | .tokenPCA _ => false
  | .sentiment _ => false

/-- Replace the instances attribute of a count-based helper. -/
def Helper.setRows : Helper → List (List Nat) → Helper
  | .ngrams st, m => .ngrams { st with instances := some m }
  | .funcWords st, m => .funcWords { st with instances := some m }
  | h, _ => h

/-- Rows accumulated so far in a count-based helper (empty while None). -/
def Helper.rowsD : Helper → List (List Nat)
  | .ngrams st => st.instances.getD []
  | .funcWords st => st.instances.getD []
  | _ => []

/-- Row a count-based helper appends for one instance. -/
def Helper.rowFor : Helper → String → List Tok → List Nat
  | .ngrams st, raw, frog => ngramRow st raw frog
  | .funcWords st, _, frog => funcRow st frog
  | _, _, _ => []

/-- Cumulative effect of the transform stream loop on one count-based
helper, instance by instance. -/
def tfAll : List Inst → Helper → Helper
  | [], h => h
  | i :: s, h => tfAll s (h.setRows (h.rowsD ++ [h.rowFor i.raw i.frog]))

/-- Per-instance fold of TokenPCA.fit over a stream, as performed by the
instance-local path of loop_helpers. -/
def pcaFitFold (st : TokenPCAState) (corpus : List Inst) : TokenPCAState :=
  corpus.foldl (fun s i => TokenPCA.fit s i.raw i.frog) st

/-- Fold of Ngrams.fit over a whole corpus, as the fit phase of loop_helpers
performs it for an Ngrams helper. -/
def ngramFitAll (st : NgramsState) (corpus : List Inst) : Except PyError NgramsState :=
  corpus.foldlM (fun s i => Ngrams.fit s i.raw i.frog) st

/-- The dict that the fit fold builds, written as a pure fold. -/
def ngramFitDict (level : String) (nl : List Nat) (corpus : List Inst) :
    List (String × Nat) :=
  corpus.foldl (fun d i => ngramAccum level nl (ngramNeedle level i.raw i.frog) d) []

/-- Every n-gram key observed anywhere in the corpus, with multiplicity. -/
def ngramObserved (level : String) (nl : List Nat) (corpus : List Inst) :
    List String :=
  corpus.flatMap (fun i => nl.flatMap (fun n => ngramKeys level (ngramNeedle level i.raw i.frog) n))

/-- Distinct elements of a list in first-occurrence order. -/
def distinctKeys (l : List String) : List String :=
  l.foldl (fun acc s => if s ∈ acc then acc else acc ++ [s]) []

/-- Lexicographic strict order on character lists comparing code points, the
order Python string comparison uses. -/
def strLexLt : List Char → List Char → Bool
  | [], [] => false
  | [], _ :: _ => true
  | _ :: _, [] => false
  | a :: as, b :: bs => if a = b then strLexLt as bs else decide (a < b)

/-- Modelled from the spec: the ranking the specification describes places a
before b when a has strictly greater frequency, or equal frequency and
reverse-lexicographically greater key. -/
def specBefore (a b : String × Nat) : Bool :=
  b.2 < a.2 || (a.2 == b.2 && strLexLt b.1.toList a.1.toList)

/-- Insertion step of the spec-side ranking. -/
def insertSpec (p : String × Nat) : List (String × Nat) → List (String × Nat)
  | [] => [p]
  | q :: rest => if specBefore q p then q :: insertSpec p rest else p :: q :: rest

/-- Sort by the spec-side ranking. -/
def specSortPairs (l : List (String × Nat)) : List (String × Nat) :=
  l.foldl (fun acc p => insertSpec p acc) []

/-- Modelled from the spec: the vocabulary the specification describes for an
n-gram extractor, namely the distinct observed keys ranked by descending
corpus frequency with ties broken by reverse-lexicographic key order,
truncated to max_features. -/
def specRankedVocab (level : String) (nl : List Nat) (k : Option Nat)
    (corpus : List Inst) : List String :=
  takeOpt k ((specSortPairs ((distinctKeys (ngramObserved level nl corpus)).map
    (fun s => (s, (ngramObserved level nl corpus).count s)))).map Prod.fst)

/-- Descending-by-stored-count order on pair lists. -/
def SortedD (l : List (String × Nat)) : Prop :=
  List.Pairwise (fun a b => b.2 ≤ a.2) l

/-! ## Concrete data used by witnesses and counterexamples -/

/-- Frog annotation of the two-token instance of the concrete scenario. -/
def demoFrog : List Tok := [⟨"a", "a", "N(", 0⟩, ⟨"b", "b", "N(", 0⟩]

/-- Single-instance corpus of the concrete scenario. -/
def demoCorpus : List Inst := [⟨"pos", "ab", demoFrog⟩]

/-- The token-level unigram extractor state after fit and close_fit on
demoCorpus. -/
def demoClosedNg : NgramsState :=
  { level := "token", n_list := [1], max_feats := none,
    feats := .strlist ["token-", "token-a", "token-b"], instances := none }

/-- Featurizer holding one fresh token-unigram extractor. -/
def fzDemo0 : FeaturizerState :=
  ⟨[], [.ngrams (Ngrams.mkInit "token" [1] none)], [], []⟩

/-- State after Featurizer.fit on demoCorpus. -/
def fzDemoF : FeaturizerState := ⟨[], [.ngrams demoClosedNg], [], []⟩

/-- State after the first Featurizer.transform on demoCorpus. -/
def fzDemoT1 : FeaturizerState :=
  ⟨["pos"], [.ngrams { demoClosedNg with instances := some [[2, 1, 1]] }], [], []⟩

/-- State after the second Featurizer.transform on demoCorpus. -/
def fzDemoT2 : FeaturizerState :=
  ⟨["pos", "pos"], [.ngrams { demoClosedNg with instances := some [[2, 1, 1], [2, 1, 1]] }], [], []⟩

/-- First instance of the two-instance corpus: tokens a a. -/
def frogA : List Tok := [⟨"a", "a", "N(", 0⟩, ⟨"a", "a", "N(", 0⟩]

/-- Second instance of the two-instance corpus: tokens a b b. -/
def frogB : List Tok := [⟨"a", "a", "N(", 0⟩, ⟨"b", "b", "N(", 0⟩, ⟨"b", "b", "N(", 0⟩]

/-- Two-instance corpus on which stored counts and corpus frequencies
disagree. -/
def corpus2 : List Inst := [⟨"x", "aa", frogA⟩, ⟨"y", "abb", frogB⟩]

/-- Closed extractor state after fitting the token unigram extractor with
max_feats 3 on corpus2: the dict holds token- at 2, token-a at 1 (replaced
by the second instance) and token-b at 2, and the stable descending sort
leaves token-b before token-a. -/
def stC2closed : NgramsState :=
  { level := "token", n_list := [1], max_feats := some 3,
    feats := .strlist ["token-", "token-b", "token-a"], instances := none }

/-- Instance whose frog holds one noun a and three function words b. -/
def frogC : List Tok :=
  [⟨"a", "a", "N(", 0⟩, ⟨"b", "b", "VNW(pers)", 0⟩, ⟨"b", "b", "VNW(pers)", 0⟩, ⟨"b", "b", "VNW(pers)", 0⟩]

/-- Single-instance corpus for the block-order counterexample. -/
def corpusC : List Inst := [⟨"pos", "abbb", frogC⟩]

/-- Featurizer holding a token-unigram extractor before a function-word
extractor; the lexicographic name order would be the reverse. -/
def fzC0 : FeaturizerState :=
  ⟨[], [.ngrams (Ngrams.mkInit "token" [1] none), .funcWords FuncWords.mkInit], [], []⟩

/-- Fitted state of fzC0 on corpusC. -/
def fzCF : FeaturizerState :=
  ⟨[], [.ngrams { level := "token", n_list := [1], max_feats := none, feats := .strlist ["token-b", "token-", "token-a"], instances := none }, .funcWords { feats := .strlist ["b"], instances := none }], [], []⟩

/-- Two-instance corpus with raw texts r1 and r2 for the TokenPCA claim. -/
def corpusP : List Inst := [⟨"u", "r1", []⟩, ⟨"v", "r2", []⟩]

/-- One-token frog used by the sentiment failing input. -/
def demoSentTok : Tok := ⟨"goed", "goed", "ADJ(basis)", 0⟩

/-- Sentiment state with an arbitrary small lexicon. -/
def demoSentState : SentimentState :=
  { lexiconDict := [(("goed", "a"), 1)], instances := none }

/-! ## Small supporting lemmas -/

/-- Numpy mean of a nonempty list is a defined value. -/
theorem np_mean_isSome {l : List Nat} (h : l ≠ []) : (np_mean l).isSome = true := by
  cases l with
  | nil => exact absurd rfl h
  | cons x xs => simp [np_mean]

/-- The counting fold behind natCounter never empties a nonempty accumulator. -/
theorem natCounter_foldl_ne_nil (l : List Nat) :
    ∀ d : List (Nat × Nat), d ≠ [] →
    l.foldl (fun d s => if d.any (fun p => p.1 == s) then d.map (fun p => if p.1 == s then (p.1, p.2 + 1) else p) else d ++ [(s, 1)]) d ≠ [] := by
  induction l with
  | nil => intro d hd; simpa using hd
  | cons x xs ih =>
      intro d hd
      simp only [List.foldl_cons]
      apply ih
      by_cases hx : d.any (fun p => p.1 == x)
      · simpa [hx] using hd
      · simp [hx]

/-- Counter of a nonempty list is nonempty. -/
theorem natCounter_ne_nil (x : Nat) (l : List Nat) : natCounter (x :: l) ≠ [] := by
  unfold natCounter
  simp only [List.foldl_cons]
  apply natCounter_foldl_ne_nil
  simp

/-- C9: on the corpus [("pos", "ab", [(a,a,N(,0),(b,b,N(,0)])], the token
unigram extractor with n_list [1] and max_feats None is fit, closed and
applied once; the result is a single row whose columns are the boundary key
token- at 2 and the keys token-a and token-b at 1 each, and nothing else. -/
theorem claim9_concrete_unigram_pipeline :
    (do
      let s1 ← Ngrams.fit (Ngrams.mkInit "token" [1] none) "ab" demoFrog
      let s2 ← Ngrams.close_fit s1
      pure (Ngrams.transform s2 "ab" demoFrog)) =
      Except.ok { demoClosedNg with instances := some [[2, 1, 1]] } ∧
    featsIter demoClosedNg.feats = ["token-", "token-a", "token-b"] ∧
    ngramInstDict demoClosedNg "ab" demoFrog = [("token-", 2), ("token-a", 1), ("token-b", 1)] ∧
    dget (ngramInstDict demoClosedNg "ab" demoFrog) "token-a" = 1 ∧
    dget (ngramInstDict demoClosedNg "ab" demoFrog) "token-b" = 1 ∧
    dget (ngramInstDict demoClosedNg "ab" demoFrog) "token-" = 2 := by
  refine ⟨by decide, by decide, by decide, by decide, by decide, by decide⟩

/-- C6: calculate_sentiment passes the whole 4-tuple to re.search, which
raises TypeError on the very first pattern of the very first token, so every
nonempty instance makes transform fail; only the empty instance yields the
initial score 0. -/
theorem claim6_sentiment_typeerror (st : SentimentState) (raw : String) (t : Tok) (ts : List Tok) :
    calculate_sentiment st (t :: ts) = .error .typeError ∧
    SentimentFeatures.transform st raw (t :: ts) = .error .typeError ∧
    calculate_sentiment st [] = .ok 0 := by
  exact ⟨rfl, rfl, rfl⟩

/-- C2 counterexample: transform before any fit does not raise at all; with
the vocabulary still an empty dict the extractor happily appends a width-0
row, and the Featurizer returns the degenerate matrix, so no NotFittedError
(which appears nowhere in the code) is possible. -/
theorem claim2_counterexample :
    Featurizer.transform fzDemo0 demoCorpus =
      .ok (⟨["pos"], [.ngrams { Ngrams.mkInit "token" [1] none with instances := some [[]] }], [], []⟩, [[]]) ∧
    FuncWords.transform FuncWords.mkInit "ab" demoFrog =
      { FuncWords.mkInit with instances := some [[]] } := by
  exact ⟨by decide, by decide⟩

/-- C2 amended: transform on a never-fitted count-based extractor raises
nothing; it produces a row of width zero because the empty dict vocabulary
is iterated as an empty key list. -/
theorem claim2_amended (level : String) (nl : List Nat) (mf : Option Nat)
    (raw : String) (frog : List Tok) :
    Ngrams.transform (Ngrams.mkInit level nl mf) raw frog =
      { Ngrams.mkInit level nl mf with instances := some [[]] } ∧
    FuncWords.transform FuncWords.mkInit raw frog =
      { FuncWords.mkInit with instances := some [[]] } := by
  exact ⟨rfl, rfl⟩

/-- C7 counterexample: the word-length and sentence-length averages are fed
to np.mean without any guard, so on empty input they evaluate to NaN (none),
not to the neutral 0 the claim asserts; only the flooding average is
guarded. -/
theorem claim7_counterexample :
    avg_word_len (get_words []) = none ∧
    avg_sent_length [] = none ∧
    avg_word_len (get_words []) ≠ some 0 ∧
    avg_sent_length [] ≠ some 0 ∧
    avg_fl_len [] = some 0 := by
  refine ⟨by decide, by decide, by decide, by decide, by decide⟩

/-- C7 amended: the flooding average is explicitly guarded and yields 0 on an
empty flooding list; the word-length and sentence-length averages are
unguarded, yield NaN (none) on empty input without raising, and a defined
value on nonempty input. -/
theorem claim7_amended (fl : List (String × String)) (ws : List String) (sn : List Nat)
    (hfl : fl ≠ []) (hws : ws ≠ []) (hsn : sn ≠ []) :
    avg_fl_len [] = some 0 ∧ avg_word_len (get_words []) = none ∧ avg_sent_length [] = none ∧
    (avg_fl_len fl).isSome = true ∧ (avg_word_len ws).isSome = true ∧
    (avg_sent_length sn).isSome = true := by
  refine ⟨by decide, by decide, by decide, ?_, ?_, ?_⟩
  · unfold avg_fl_len
    rw [if_neg hfl]
    apply np_mean_isSome
    simpa using hfl
  · unfold avg_word_len
    apply np_mean_isSome
    simpa using hws
  · unfold avg_sent_length
    apply np_mean_isSome
    cases sn with
    | nil => exact absurd rfl hsn
    | cons x xs => simpa using natCounter_ne_nil x xs

/-- Witness for claim7_amended at concrete nonempty inputs. -/
theorem claim7_witness :
    ([("aaa", "a")] : List (String × String)) ≠ [] ∧ (["ab"] : List String) ≠ [] ∧
    ([0] : List Nat) ≠ [] ∧
    (avg_fl_len [] = some 0 ∧ avg_word_len (get_words []) = none ∧ avg_sent_length [] = none ∧
     (avg_fl_len [("aaa", "a")]).isSome = true ∧ (avg_word_len ["ab"]).isSome = true ∧
     (avg_sent_length [0]).isSome = true) := by
  exact ⟨by decide, by decide, by decide,
    claim7_amended [("aaa", "a")] ["ab"] [0] (by decide) (by decide) (by decide)⟩

/-- C1 counterexample: after one fit and close_fit on the one-instance
corpus, the first transform returns a one-row matrix but mutates the
extractor (instances grows and labels grows), and a second transform on the
same corpus returns a two-row matrix, not the same matrix. -/
theorem claim1_counterexample :
    Featurizer.fit fzDemo0 demoCorpus = .ok fzDemoF ∧
    Featurizer.transform fzDemoF demoCorpus = .ok (fzDemoT1, [[2, 1, 1]]) ∧
    Featurizer.transform fzDemoT1 demoCorpus = .ok (fzDemoT2, [[2, 1, 1], [2, 1, 1]]) ∧
    ([[2, 1, 1], [2, 1, 1]] : Mat) ≠ [[2, 1, 1]] ∧
    fzDemoT1 ≠ fzDemoF := by
  refine ⟨by decide, by decide, by decide, by decide, by decide⟩

/-- C3 counterexample: fitting the token unigram extractor with max_feats 3
on corpus2 stores replaced counts (token-a drops to its count in the last
instance containing it) and closes the vocabulary as token-, token-b,
token-a, while the ranking the claim describes (corpus frequency descending,
ties reverse-lexicographic) yields token-, token-a, token-b. -/
theorem claim3_counterexample :
    (do
      let s1 ← ngramFitAll (Ngrams.mkInit "token" [1] (some 3)) corpus2
      Ngrams.close_fit s1) = Except.ok stC2closed ∧
    featsIter stC2closed.feats = ["token-", "token-b", "token-a"] ∧
    specRankedVocab "token" [1] (some 3) corpus2 = ["token-", "token-a", "token-b"] ∧
    (["token-", "token-b", "token-a"] : List String) ≠ ["token-", "token-a", "token-b"] := by
  refine ⟨by decide, by decide, by decide, by decide⟩

/-- C4 counterexample: with the helpers collection holding the token unigram
extractor before the function-word extractor, the assembled matrix has the
n-gram block first although func_words sorts lexicographically before
token_ngram; the name-sorted assembly would be the different matrix below. -/
theorem claim4_counterexample :
    Featurizer.fit fzC0 corpusC = .ok fzCF ∧
    Featurizer.transform fzCF corpusC =
      .ok (⟨["pos"], [.ngrams { level := "token", n_list := [1], max_feats := none, feats := .strlist ["token-b", "token-", "token-a"], instances := some [[3, 2, 1]] }, .funcWords { feats := .strlist ["b"], instances := some [[3]] }], [], []⟩, [[3, 2, 1, 3]]) ∧
    ([[3, 2, 1, 3]] : Mat) = List.zipWith (fun a b => a ++ b) [[(3 : Rat), 2, 1]] [[(3 : Rat)]] ∧
    ([[3, 2, 1, 3]] : Mat) ≠ List.zipWith (fun a b => a ++ b) [[(3 : Rat)]] [[(3 : Rat), 2, 1]] ∧
    strLexLt "func_words".toList "token_ngram".toList = true := by
  refine ⟨by decide, by decide, by decide, by decide, by decide⟩

/-! ## Lemmas about dct.get -/

/-- A key that is not among the keys of a dict is looked up as 0. -/
theorem dget_eq_zero_of_not_mem {d : List (String × Nat)} {f : String}
    (h : f ∉ keysOf d) : dget d f = 0 := by
  unfold dget
  have hnone : d.find? (fun p => p.1 == f) = none := by
    rw [List.find?_eq_none]
    intro p hp hbeq
    exact h (List.mem_map.mpr ⟨p, hp, by simpa using hbeq⟩)
  rw [hnone]

/-- C8: for both count-based extractors, the appended row is indexed exactly
by the frozen vocabulary (one column per vocabulary key, no column for any
other key), and a vocabulary key absent from the instance dict contributes
dct.get default 0. -/
theorem claim8_zero_padding (st : NgramsState) (stF : FuncWordsState)
    (raw : String) (frog : List Tok) (f g : String)
    (hf : f ∉ keysOf (ngramInstDict st raw frog))
    (hg : g ∉ keysOf (func_freq frog)) :
    dget (ngramInstDict st raw frog) f = 0 ∧
    dget (func_freq frog) g = 0 ∧
    ngramRow st raw frog = (featsIter st.feats).map (fun x => dget (ngramInstDict st raw frog) x) ∧
    (ngramRow st raw frog).length = (featsIter st.feats).length ∧
    funcRow stF frog = (featsIter stF.feats).map (fun x => dget (func_freq frog) x) ∧
    (funcRow stF frog).length = (featsIter stF.feats).length ∧
    Ngrams.transform st raw frog = { st with instances := some (st.instances.getD [] ++ [ngramRow st raw frog]) } ∧
    FuncWords.transform stF raw frog = { stF with instances := some (stF.instances.getD [] ++ [funcRow stF frog]) } := by
  refine ⟨dget_eq_zero_of_not_mem hf, dget_eq_zero_of_not_mem hg, rfl, ?_, rfl, ?_, rfl, rfl⟩
  · simp [ngramRow]
  · simp [funcRow]

/-- Witness for claim8_zero_padding: the key token-zz is in neither instance
dict, and the key b is observed in the instance but absent from the closed
demo vocabulary, contributing no column (row width equals vocabulary size). -/
theorem claim8_witness :
    ("token-zz" ∉ keysOf (ngramInstDict demoClosedNg "ab" demoFrog)) ∧
    ("token-zz" ∉ keysOf (func_freq demoFrog)) ∧
    (dget (ngramInstDict demoClosedNg "ab" demoFrog) "token-zz" = 0 ∧
     dget (func_freq demoFrog) "token-zz" = 0 ∧
     ngramRow demoClosedNg "ab" demoFrog = (featsIter demoClosedNg.feats).map (fun x => dget (ngramInstDict demoClosedNg "ab" demoFrog) x) ∧
     (ngramRow demoClosedNg "ab" demoFrog).length = (featsIter demoClosedNg.feats).length ∧
     funcRow FuncWords.mkInit demoFrog = (featsIter FuncWords.mkInit.feats).map (fun x => dget (func_freq demoFrog) x) ∧
     (funcRow FuncWords.mkInit demoFrog).length = (featsIter FuncWords.mkInit.feats).length ∧
     Ngrams.transform demoClosedNg "ab" demoFrog = { demoClosedNg with instances := some (demoClosedNg.instances.getD [] ++ [ngramRow demoClosedNg "ab" demoFrog]) } ∧
     FuncWords.transform FuncWords.mkInit "ab" demoFrog = { FuncWords.mkInit with instances := some (FuncWords.mkInit.instances.getD [] ++ [funcRow FuncWords.mkInit demoFrog]) }) := by
  exact ⟨by decide, by decide,
    claim8_zero_padding demoClosedNg FuncWords.mkInit "ab" demoFrog "token-zz" "token-zz" (by decide) (by decide)⟩

/-! ## TokenPCA routing -/

/-- Stream phase of fit for a lone TokenPCA helper: the name token_pca is
not in the space_based list (which holds the class name TokenPCA instead),
so the helper is driven down the instance-local path, one fit call per
instance with that single raw text. -/
theorem pca_loopStream_fit (corpus : List Inst) :
    ∀ (l0 X0 Y0 : List String) (st : TokenPCAState),
    loopStream .fit ⟨l0, [.tokenPCA st], X0, Y0⟩ corpus =
      .ok ⟨l0, [.tokenPCA (pcaFitFold st corpus)], X0, Y0⟩ := by
  induction corpus with
  | nil => intro l0 X0 Y0 st; rfl
  | cons i rest ih =>
      intro l0 X0 Y0 st
      have hstep : loopStream .fit ⟨l0, [.tokenPCA st], X0, Y0⟩ (i :: rest) =
          loopStream .fit ⟨l0, [.tokenPCA (TokenPCA.fit st i.raw i.frog)], X0, Y0⟩ rest := rfl
      rw [hstep, ih]
      rfl

/-- Fit-call bookkeeping of the per-instance fold. -/
theorem pcaFitFold_calls (corpus : List Inst) :
    ∀ st : TokenPCAState,
    (pcaFitFold st corpus).fitCalls = st.fitCalls ++ corpus.map (fun i => i.raw) := by
  induction corpus with
  | nil => intro st; simp [pcaFitFold]
  | cons i rest ih =>
      intro st
      have hstep : pcaFitFold st (i :: rest) = pcaFitFold (TokenPCA.fit st i.raw i.frog) rest := rfl
      rw [hstep, ih]
      simp [TokenPCA.fit]

/-- C5: driving a TokenPCA extractor through Featurizer.fit calls
TokenPCA.fit once per corpus instance, each time with only that instance raw
text, because helper.name token_pca never matches the space_based entry
TokenPCA; no whole-corpus batch call exists anywhere in loop_helpers. -/
theorem claim5_tokenpca_fit_per_instance (st : TokenPCAState)
    (l0 X0 Y0 : List String) (corpus : List Inst) :
    Featurizer.fit ⟨l0, [.tokenPCA st], X0, Y0⟩ corpus =
      .ok ⟨l0, [.tokenPCA (pcaFitFold st corpus)], X0, Y0⟩ ∧
    (pcaFitFold st corpus).fitCalls = st.fitCalls ++ corpus.map (fun i => i.raw) ∧
    "token_pca" ∉ spaceBased := by
  refine ⟨?_, pcaFitFold_calls corpus st, by decide⟩
  unfold Featurizer.fit
  rw [pca_loopStream_fit]
  rfl

/-! ## Sentiment through the orchestrator -/

/-- C10: SentimentFeatures objects define neither a name attribute nor a
close_fit method; loop_helpers reads helper.name on the first instance of
the stream in both modes, so any nonempty stream makes both Featurizer.fit
and Featurizer.transform raise AttributeError. -/
theorem claim10_sentiment_not_orchestratable (st : SentimentState)
    (l0 X0 Y0 : List String) (stream : List Inst) (hne : stream ≠ []) :
    Featurizer.fit ⟨l0, [.sentiment st], X0, Y0⟩ stream = .error .attributeError ∧
    Featurizer.transform ⟨l0, [.sentiment st], X0, Y0⟩ stream = .error .attributeError := by
  cases stream with
  | nil => exact absurd rfl hne
  | cons i rest => exact ⟨rfl, rfl⟩

/-- Witness for claim10 on a concrete one-instance stream. -/
theorem claim10_witness :
    (demoCorpus ≠ []) ∧
    (Featurizer.fit ⟨[], [.sentiment demoSentState], [], []⟩ demoCorpus = .error .attributeError ∧
     Featurizer.transform ⟨[], [.sentiment demoSentState], [], []⟩ demoCorpus = .error .attributeError) := by
  exact ⟨by decide, claim10_sentiment_not_orchestratable demoSentState [] [] [] demoCorpus (by decide)⟩

/-! ## The transform stream loop over count-based helpers -/

/-- A mapM whose function succeeds pointwise returns the mapped list. -/
theorem helper_mapM_ok {f : Helper → Except PyError Helper} {g : Helper → Helper}
    (l : List Helper) (h : ∀ x ∈ l, f x = .ok (g x)) :
    l.mapM f = .ok (l.map g) := by
  induction l with
  | nil => rfl
  | cons a as ih =>
      rw [List.mapM_cons, h a (by simp), ih (fun x hx => h x (by simp [hx]))]
      rfl

/-- Reduction of a monadic bind over a successful Except value. -/
theorem except_bind_ok {α β : Type} (a : α) (f : α → Except PyError β) :
    ((Except.ok a : Except PyError α) >>= f) = f a := rfl

/-- Reduction of a functorial map over a successful Except value. -/
theorem except_map_ok {α β : Type} (f : α → β) (a : α) :
    (f <$> (Except.ok a : Except PyError α)) = .ok (f a) := rfl

/-- One helper-loop step in transform mode on a count-based helper: the name
check fails (the name is not space-based), transform runs and appends
exactly one row. -/
theorem helperStep_count (h : Helper) (raw : String) (frog : List Tok)
    (hc : h.isCount = true) :
    helperStep .transform raw frog h = .ok (h.setRows (h.rowsD ++ [h.rowFor raw frog])) := by
  cases h with
  | ngrams st =>
      have hn : (st.level ++ "_ngram") ∉ spaceBased := of_decide_eq_true hc
      show (if (st.level ++ "_ngram") ∈ spaceBased then pure (Helper.ngrams st)
            else Helper.transformH (Helper.ngrams st) raw frog) = _
      rw [if_neg hn]
      rfl
  | funcWords st =>
      have hn : ("func_words" : String) ∉ spaceBased := by decide
      show (if ("func_words" : String) ∈ spaceBased then pure (Helper.funcWords st)
            else Helper.transformH (Helper.funcWords st) raw frog) = _
      rw [if_neg hn]
      rfl
  | tokenPCA st => simp [Helper.isCount] at hc
  | sentiment st => simp [Helper.isCount] at hc

/-- Replacing rows leaves the count-based discrimination unchanged. -/
theorem isCount_setRows (h : Helper) (m : List (List Nat)) :
    (h.setRows m).isCount = h.isCount := by
  cases h <;> rfl

/-- Replacing rows does not change the row a helper computes, because the
row depends only on the frozen vocabulary and configuration. -/
theorem rowFor_setRows (h : Helper) (m : List (List Nat)) (raw : String) (frog : List Tok) :
    (h.setRows m).rowFor raw frog = h.rowFor raw frog := by
  cases h <;> rfl

/-- Reading back the rows just set on a count-based helper. -/
theorem rowsD_setRows (h : Helper) (m : List (List Nat)) (hc : h.isCount = true) :
    (h.setRows m).rowsD = m := by
  cases h with
  | ngrams st => rfl
  | funcWords st => rfl
  | tokenPCA st => simp [Helper.isCount] at hc
  | sentiment st => simp [Helper.isCount] at hc

/-- Setting rows twice keeps the last value. -/
theorem setRows_setRows (h : Helper) (m m2 : List (List Nat)) :
    (h.setRows m).setRows m2 = h.setRows m2 := by
  cases h <;> rfl

/-- Instances attribute of a count helper after setting rows. -/
theorem instAttr_setRows (h : Helper) (m : List (List Nat)) (hc : h.isCount = true) :
    (h.setRows m).instAttr = some (ratMat m) := by
  cases h with
  | ngrams st => rfl
  | funcWords st => rfl
  | tokenPCA st => simp [Helper.isCount] at hc
  | sentiment st => simp [Helper.isCount] at hc

/-- The instances update commutes away under ngramRow. -/
theorem ngramRow_set_instances (st : NgramsState) (v : Option (List (List Nat)))
    (raw : String) (frog : List Tok) :
    ngramRow { st with instances := v } raw frog = ngramRow st raw frog := rfl

/-- The instances update commutes away under funcRow. -/
theorem funcRow_set_instances (st : FuncWordsState) (v : Option (List (List Nat)))
    (frog : List Tok) :
    funcRow { st with instances := v } frog = funcRow st frog := rfl

/-- Unfolding one transform-mode stream step once the helper updates are
known. -/
theorem loopStream_cons_tf (fz : FeaturizerState) (i : Inst) (rest : List Inst)
    (hs : List Helper)
    (h : fz.helpers.mapM (helperStep .transform i.raw i.frog) = .ok hs) :
    loopStream .transform fz (i :: rest) =
      loopStream .transform ⟨fz.labels ++ [i.label], hs, fz.X, fz.Y⟩ rest := by
  unfold loopStream
  simp only [List.foldlM_cons, h, except_map_ok, except_bind_ok]
  rfl

/-- Effect of the whole transform stream phase on count-based helpers: every
helper accumulates its per-instance rows in order, and the labels of the
stream are appended to self.labels in corpus order. -/
theorem loopStream_transform_count (stream : List Inst) :
    ∀ fz : FeaturizerState, (∀ h ∈ fz.helpers, h.isCount = true) →
    loopStream .transform fz stream =
      .ok ⟨fz.labels ++ stream.map (fun i => i.label), fz.helpers.map (tfAll stream), fz.X, fz.Y⟩ := by
  induction stream with
  | nil =>
      intro fz hall
      have hmap : fz.helpers.map (tfAll []) = fz.helpers := by
        simp [tfAll]
      simp only [loopStream, List.foldlM_nil, List.map_nil, List.append_nil, hmap]
      rfl
  | cons i rest ih =>
      intro fz hall
      have hstep := helper_mapM_ok (f := helperStep .transform i.raw i.frog)
        (g := fun h => h.setRows (h.rowsD ++ [h.rowFor i.raw i.frog])) fz.helpers
        (fun x hx => helperStep_count x i.raw i.frog (hall x hx))
      have hall2 : ∀ h ∈ fz.helpers.map (fun h => h.setRows (h.rowsD ++ [h.rowFor i.raw i.frog])), h.isCount = true := by
        intro h hh
        obtain ⟨h0, hh0, rfl⟩ := List.mem_map.mp hh
        rw [isCount_setRows]
        exact hall h0 hh0
      rw [loopStream_cons_tf fz i rest _ hstep,
          ih ⟨fz.labels ++ [i.label], fz.helpers.map (fun h => h.setRows (h.rowsD ++ [h.rowFor i.raw i.frog])), fz.X, fz.Y⟩ hall2]
      simp only [List.map_map, List.append_assoc, List.map_cons, List.singleton_append]
      rfl

/-- Closed form of the per-helper accumulation over a nonempty stream. -/
theorem tfAll_eq (stream : List Inst) :
    ∀ h : Helper, h.isCount = true → stream ≠ [] →
    tfAll stream h = h.setRows (h.rowsD ++ stream.map (fun i => h.rowFor i.raw i.frog)) := by
  induction stream with
  | nil => intro h hc hne; exact absurd rfl hne
  | cons i rest ih =>
      intro h hc hne
      cases rest with
      | nil => simp [tfAll]
      | cons j tl =>
          have h1 : tfAll (i :: j :: tl) h =
              tfAll (j :: tl) (h.setRows (h.rowsD ++ [h.rowFor i.raw i.frog])) := rfl
          rw [h1, ih _ (by rw [isCount_setRows]; exact hc) (by simp)]
          rw [setRows_setRows, rowsD_setRows _ _ hc]
          simp [rowFor_setRows, List.append_assoc]

/-- Numpy hstack of one block. -/
theorem np_hstack_single (m : Mat) : np_hstack [some m] = .ok m := rfl

/-- Numpy hstack of two blocks with matching row counts is the rowwise
concatenation. -/
theorem np_hstack_pair (a b : Mat) (h : b.length = a.length) :
    np_hstack [some a, some b] = .ok (List.zipWith (fun r s => r ++ s) a b) := by
  have hcond : ([b] : List Mat).all (fun x => x.length == a.length) = true := by
    simp [h]
  show (if ([b] : List Mat).all (fun x => x.length == a.length) then
          Except.ok (List.foldl (fun x y => List.zipWith (fun r s => r ++ s) x y) a [b])
        else Except.error PyError.valueError) = _
  rw [if_pos hcond]
  rfl

/-- Featurizer.transform over count-based helpers, given the stacked matrix. -/
theorem featurizer_transform_counts (fz : FeaturizerState) (corpus : List Inst) (X : Mat)
    (hall : ∀ h ∈ fz.helpers, h.isCount = true)
    (hX : np_hstack ((fz.helpers.map (tfAll corpus)).map Helper.instAttr) = .ok X) :
    Featurizer.transform fz corpus =
      .ok (⟨fz.labels ++ corpus.map (fun i => i.label), fz.helpers.map (tfAll corpus), fz.X, fz.Y⟩, X) := by
  unfold Featurizer.transform
  rw [loopStream_transform_count corpus fz hall]
  simp only [except_bind_ok, except_map_ok]
  rw [hX]
  rfl

/-- C1 amended: after fit, transform is not idempotent and does mutate
extractor state: each Featurizer.transform appends one row per corpus
instance to the extractor instances array and appends the labels again, so a
second transform over the same corpus returns the first matrix stacked on
itself; only the frozen vocabulary (the feats attribute) is left unchanged
by transform. -/
theorem claim1_amended (st : NgramsState) (l0 X0 Y0 : List String) (corpus : List Inst)
    (hc : (Helper.ngrams st).isCount = true) (hn : st.instances = none) (hne : corpus ≠ []) :
    Featurizer.transform ⟨l0, [.ngrams st], X0, Y0⟩ corpus =
      .ok (⟨l0 ++ corpus.map (fun i => i.label),
            [.ngrams { st with instances := some (corpus.map (fun i => ngramRow st i.raw i.frog)) }],
            X0, Y0⟩,
          ratMat (corpus.map (fun i => ngramRow st i.raw i.frog))) ∧
    Featurizer.transform
        ⟨l0 ++ corpus.map (fun i => i.label),
         [.ngrams { st with instances := some (corpus.map (fun i => ngramRow st i.raw i.frog)) }],
         X0, Y0⟩ corpus =
      .ok (⟨(l0 ++ corpus.map (fun i => i.label)) ++ corpus.map (fun i => i.label),
            [.ngrams { st with instances := some (corpus.map (fun i => ngramRow st i.raw i.frog) ++ corpus.map (fun i => ngramRow st i.raw i.frog)) }],
            X0, Y0⟩,
          ratMat (corpus.map (fun i => ngramRow st i.raw i.frog) ++ corpus.map (fun i => ngramRow st i.raw i.frog))) ∧
    ratMat (corpus.map (fun i => ngramRow st i.raw i.frog) ++ corpus.map (fun i => ngramRow st i.raw i.frog)) ≠
      ratMat (corpus.map (fun i => ngramRow st i.raw i.frog)) := by
  have htf1 : tfAll corpus (Helper.ngrams st) =
      Helper.ngrams { st with instances := some (corpus.map (fun i => ngramRow st i.raw i.frog)) } := by
    rw [tfAll_eq corpus _ hc hne]
    simp [Helper.setRows, Helper.rowsD, Helper.rowFor, hn]
  have hc2 : (Helper.ngrams { st with instances := some (corpus.map (fun i => ngramRow st i.raw i.frog)) }).isCount = true := hc
  have htf2 : tfAll corpus (Helper.ngrams { st with instances := some (corpus.map (fun i => ngramRow st i.raw i.frog)) }) =
      Helper.ngrams { st with instances := some (corpus.map (fun i => ngramRow st i.raw i.frog) ++ corpus.map (fun i => ngramRow st i.raw i.frog)) } := by
    rw [tfAll_eq corpus _ hc2 hne]
    simp [Helper.setRows, Helper.rowsD, Helper.rowFor, ngramRow_set_instances]
  refine ⟨?_, ?_, ?_⟩
  · rw [featurizer_transform_counts _ corpus _ (by simpa using hc) ?hx]
    case hx =>
      simp only [List.map_cons, List.map_nil, htf1, Helper.instAttr]
      exact np_hstack_single _
    simp [htf1]
  · rw [featurizer_transform_counts _ corpus _ (by simpa using hc2) ?hx2]
    case hx2 =>
      simp only [List.map_cons, List.map_nil, htf2, Helper.instAttr]
      exact np_hstack_single _
    simp [htf2, List.append_assoc]
  · intro heq
    have hlen := congrArg List.length heq
    simp [ratMat] at hlen
    exact hne hlen

/-- Witness for claim1_amended: on the concrete fitted demo extractor the
first transform yields the one-row matrix and mutates the state. -/
theorem claim1_witness :
    Featurizer.transform fzDemoF demoCorpus =
      .ok (⟨["pos"], [.ngrams { demoClosedNg with instances := some [[2, 1, 1]] }], [], []⟩,
           [[2, 1, 1]]) :=
  (claim1_amended demoClosedNg [] [] [] demoCorpus (by decide) rfl (by decide)).1

/-- C4 amended: Featurizer.transform concatenates the feature blocks in the
order the extractors appear in the helpers collection, not sorted by
extractor name, and appends the label sequence to self.labels in corpus
order (the labels are accumulated, not returned). -/
theorem claim4_amended (stN : NgramsState) (stF : FuncWordsState) (l0 X0 Y0 : List String)
    (corpus : List Inst) (hcN : (Helper.ngrams stN).isCount = true)
    (hnN : stN.instances = none) (hnF : stF.instances = none) (hne : corpus ≠ []) :
    Featurizer.transform ⟨l0, [.ngrams stN, .funcWords stF], X0, Y0⟩ corpus =
      .ok (⟨l0 ++ corpus.map (fun i => i.label),
            [.ngrams { stN with instances := some (corpus.map (fun i => ngramRow stN i.raw i.frog)) },
             .funcWords { stF with instances := some (corpus.map (fun i => funcRow stF i.frog)) }],
            X0, Y0⟩,
          List.zipWith (fun r s => r ++ s)
            (ratMat (corpus.map (fun i => ngramRow stN i.raw i.frog)))
            (ratMat (corpus.map (fun i => funcRow stF i.frog)))) := by
  have htfN : tfAll corpus (Helper.ngrams stN) =
      Helper.ngrams { stN with instances := some (corpus.map (fun i => ngramRow stN i.raw i.frog)) } := by
    rw [tfAll_eq corpus _ hcN hne]
    simp [Helper.setRows, Helper.rowsD, Helper.rowFor, hnN]
  have htfF : tfAll corpus (Helper.funcWords stF) =
      Helper.funcWords { stF with instances := some (corpus.map (fun i => funcRow stF i.frog)) } := by
    rw [tfAll_eq corpus (Helper.funcWords stF) rfl hne]
    simp [Helper.setRows, Helper.rowsD, Helper.rowFor, hnF]
  have hall : ∀ h ∈ ([Helper.ngrams stN, Helper.funcWords stF] : List Helper), h.isCount = true := by
    intro h hh
    simp at hh
    rcases hh with rfl | rfl
    · exact hcN
    · rfl
  rw [featurizer_transform_counts _ corpus _ hall ?hx]
  case hx =>
    simp only [List.map_cons, List.map_nil, htfN, htfF, Helper.instAttr]
    apply np_hstack_pair
    simp [ratMat]
  simp [htfN, htfF]

/-- Witness for claim4_amended on the concrete fitted two-extractor state. -/
theorem claim4_witness :
    Featurizer.transform fzCF corpusC =
      .ok (⟨["pos"],
            [.ngrams { level := "token", n_list := [1], max_feats := none, feats := .strlist ["token-b", "token-", "token-a"], instances := some [[3, 2, 1]] },
             .funcWords { feats := .strlist ["b"], instances := some [[3]] }],
            [], []⟩,
          [[3, 2, 1, 3]]) := by
  have h := claim4_amended
    { level := "token", n_list := [1], max_feats := none, feats := .strlist ["token-b", "token-", "token-a"], instances := none }
    { feats := .strlist ["b"], instances := none }
    [] [] [] corpusC (by decide) rfl rfl (by decide)
  exact h

/-! ## Keys of the fitted dictionaries -/

/-- Mapping a key-preserving function over a dict leaves the key list. -/
theorem keysOf_map_preserve (d : List (String × Nat)) (g : (String × Nat) → (String × Nat))
    (hg : ∀ p, (g p).1 = p.1) : keysOf (d.map g) = keysOf d := by
  unfold keysOf
  rw [List.map_map]
  exact List.map_congr_left (fun p _ => hg p)

/-- Membership test behind the any check corresponds to key membership. -/
theorem any_fst_eq {d : List (String × Nat)} {s : String} :
    d.any (fun p => p.1 == s) = true ↔ s ∈ keysOf d := by
  simp [keysOf, List.any_eq_true]

/-- Key evolution of a Counter step. -/
theorem keysOf_insKey (d : List (String × Nat)) (s : String) :
    (s ∈ keysOf d ∧ keysOf (insKey d s) = keysOf d) ∨
    (s ∉ keysOf d ∧ keysOf (insKey d s) = keysOf d ++ [s]) := by
  unfold insKey
  by_cases hx : d.any (fun p => p.1 == s)
  · left
    refine ⟨any_fst_eq.mp hx, ?_⟩
    rw [if_pos hx]
    exact keysOf_map_preserve _ _ (fun p => by by_cases hp : p.1 == s <;> simp [hp])
  · right
    refine ⟨fun hmem => hx (any_fst_eq.mpr hmem), ?_⟩
    rw [if_neg hx]
    simp [keysOf]

/-- Keys after a Counter step come from the old keys or the new element. -/
theorem mem_keysOf_insKey {d : List (String × Nat)} {s a : String}
    (h : a ∈ keysOf (insKey d s)) : a ∈ keysOf d ∨ a = s := by
  rcases keysOf_insKey d s with ⟨_, he⟩ | ⟨_, he⟩ <;> rw [he] at h
  · exact Or.inl h
  · rcases List.mem_append.mp h with h1 | h1
    · exact Or.inl h1
    · exact Or.inr (by simpa using h1)

/-- A Counter step keeps the keys distinct. -/
theorem nodup_keysOf_insKey {d : List (String × Nat)} {s : String}
    (h : (keysOf d).Nodup) : (keysOf (insKey d s)).Nodup := by
  rcases keysOf_insKey d s with ⟨_, he⟩ | ⟨hs, he⟩ <;> rw [he]
  · exact h
  · simp [List.nodup_append, h, hs]

/-- Keys produced by the whole Counter fold come from the accumulator or the
counted list. -/
theorem mem_keysOf_insKey_foldl (l : List String) :
    ∀ (acc : List (String × Nat)) (a : String),
    a ∈ keysOf (l.foldl insKey acc) → a ∈ keysOf acc ∨ a ∈ l := by
  induction l with
  | nil => intro acc a h; exact Or.inl h
  | cons x xs ih =>
      intro acc a h
      rcases ih (insKey acc x) a h with h1 | h1
      · rcases mem_keysOf_insKey h1 with h2 | h2
        · exact Or.inl h2
        · exact Or.inr (by simp [h2])
      · exact Or.inr (by simp [h1])

/-- Keys of a frequency dictionary come from the counted list. -/
theorem mem_keysOf_freq_dict {l : List String} {a : String}
    (h : a ∈ keysOf (freq_dict l)) : a ∈ l := by
  rcases mem_keysOf_insKey_foldl l [] a h with h1 | h1
  · simp [keysOf] at h1
  · exact h1

/-- Keys of a frequency dictionary are distinct. -/
theorem nodup_keysOf_freq_dict (l : List String) : (keysOf (freq_dict l)).Nodup := by
  have aux : ∀ (l2 : List String) (acc : List (String × Nat)), (keysOf acc).Nodup →
      (keysOf (l2.foldl insKey acc)).Nodup := by
    intro l2
    induction l2 with
    | nil => intro acc h; exact h
    | cons x xs ih => intro acc h; exact ih (insKey acc x) (nodup_keysOf_insKey h)
  exact aux l [] (by simp [keysOf])

/-- Key evolution of one dict.update write. -/
theorem keysOf_updKey (d : List (String × Nat)) (kv : String × Nat) :
    (kv.1 ∈ keysOf d ∧ keysOf (updKey d kv) = keysOf d) ∨
    (kv.1 ∉ keysOf d ∧ keysOf (updKey d kv) = keysOf d ++ [kv.1]) := by
  unfold updKey
  by_cases hx : d.any (fun p => p.1 == kv.1)
  · left
    refine ⟨any_fst_eq.mp hx, ?_⟩
    rw [if_pos hx]
    exact keysOf_map_preserve _ _ (fun p => by by_cases hp : p.1 == kv.1 <;> simp [hp])
  · right
    refine ⟨fun hmem => hx (any_fst_eq.mpr hmem), ?_⟩
    rw [if_neg hx]
    simp [keysOf]

/-- Keys after one update write come from the old keys or the written key. -/
theorem mem_keysOf_updKey {d : List (String × Nat)} {kv : String × Nat} {a : String}
    (h : a ∈ keysOf (updKey d kv)) : a ∈ keysOf d ∨ a = kv.1 := by
  rcases keysOf_updKey d kv with ⟨_, he⟩ | ⟨_, he⟩ <;> rw [he] at h
  · exact Or.inl h
  · rcases List.mem_append.mp h with h1 | h1
    · exact Or.inl h1
    · exact Or.inr (by simpa using h1)

/-- One update write keeps the keys distinct. -/
theorem nodup_keysOf_updKey {d : List (String × Nat)} {kv : String × Nat}
    (h : (keysOf d).Nodup) : (keysOf (updKey d kv)).Nodup := by
  rcases keysOf_updKey d kv with ⟨_, he⟩ | ⟨hs, he⟩ <;> rw [he]
  · exact h
  · simp [List.nodup_append, h, hs]

/-- Keys after dict.update come from either dict. -/
theorem mem_keysOf_dictUpdate {u : List (String × Nat)} :
    ∀ {d : List (String × Nat)} {a : String},
    a ∈ keysOf (dictUpdate d u) → a ∈ keysOf d ∨ a ∈ keysOf u := by
  induction u with
  | nil => intro d a h; exact Or.inl h
  | cons kv rest ih =>
      intro d a h
      have h0 : a ∈ keysOf (dictUpdate (updKey d kv) rest) := h
      rcases ih h0 with h1 | h1
      · rcases mem_keysOf_updKey h1 with h2 | h2
        · exact Or.inl h2
        · exact Or.inr (by simp [keysOf, h2])
      · exact Or.inr (by simp [keysOf] at h1 ⊢; exact Or.inr h1)

/-- Updates keep the keys distinct. -/
theorem nodup_keysOf_dictUpdate (u : List (String × Nat)) :
    ∀ {d : List (String × Nat)}, (keysOf d).Nodup → (keysOf (dictUpdate d u)).Nodup := by
  induction u with
  | nil => intro d h; exact h
  | cons kv rest ih => intro d h; exact ih (nodup_keysOf_updKey h)

/-- Keys of the per-instance accumulation come from the starting dict or the
keys of the instance. -/
theorem mem_keysOf_ngramAccum {level : String} {needle : List String} (nl : List Nat) :
    ∀ {d0 : List (String × Nat)} {a : String},
    a ∈ keysOf (ngramAccum level nl needle d0) →
    a ∈ keysOf d0 ∨ a ∈ nl.flatMap (fun n => ngramKeys level needle n) := by
  induction nl with
  | nil => intro d0 a h; exact Or.inl h
  | cons n ns ih =>
      intro d0 a h
      have h0 : a ∈ keysOf (ngramAccum level ns needle (dictUpdate d0 (freq_dict (ngramKeys level needle n)))) := h
      rcases ih h0 with h1 | h1
      · rcases mem_keysOf_dictUpdate h1 with h2 | h2
        · exact Or.inl h2
        · exact Or.inr (by simp; exact Or.inl (mem_keysOf_freq_dict h2))
      · exact Or.inr (by simp at h1 ⊢; exact Or.inr h1)

/-- The accumulation keeps keys distinct. -/
theorem nodup_keysOf_ngramAccum {level : String} {needle : List String} (nl : List Nat) :
    ∀ {d0 : List (String × Nat)}, (keysOf d0).Nodup →
    (keysOf (ngramAccum level nl needle d0)).Nodup := by
  induction nl with
  | nil => intro d0 h; exact h
  | cons n ns ih => intro d0 h; exact ih (nodup_keysOf_dictUpdate _ h)

/-- Keys of the fitted dict are observed n-gram keys of the corpus. -/
theorem mem_keysOf_ngramFitDict {level : String} {nl : List Nat} (corpus : List Inst) :
    ∀ {d0 : List (String × Nat)} {a : String},
    a ∈ keysOf (corpus.foldl (fun d i => ngramAccum level nl (ngramNeedle level i.raw i.frog) d) d0) →
    a ∈ keysOf d0 ∨ a ∈ ngramObserved level nl corpus := by
  induction corpus with
  | nil => intro d0 a h; exact Or.inl h
  | cons i rest ih =>
      intro d0 a h
      rcases ih h with h1 | h1
      · rcases mem_keysOf_ngramAccum nl h1 with h2 | h2
        · exact Or.inl h2
        · exact Or.inr (by simp [ngramObserved] at h2 ⊢; exact Or.inl h2)
      · exact Or.inr (by simp [ngramObserved] at h1 ⊢; exact Or.inr h1)

/-- The fitted dict has distinct keys. -/
theorem nodup_keysOf_ngramFitDict (level : String) (nl : List Nat) (corpus : List Inst) :
    (keysOf (ngramFitDict level nl corpus)).Nodup := by
  have aux : ∀ (c : List Inst) (d0 : List (String × Nat)), (keysOf d0).Nodup →
      (keysOf (c.foldl (fun d i => ngramAccum level nl (ngramNeedle level i.raw i.frog) d) d0)).Nodup := by
    intro c
    induction c with
    | nil => intro d0 h; exact h
    | cons i rest ih => intro d0 h; exact ih _ (nodup_keysOf_ngramAccum nl h)
  exact aux corpus [] (by simp [keysOf])

/-- The fit fold stays in the dict phase and builds exactly ngramFitDict. -/
theorem ngramFitAll_mkInit (level : String) (nl : List Nat) (mf : Option Nat)
    (corpus : List Inst) :
    ngramFitAll (Ngrams.mkInit level nl mf) corpus =
      .ok ⟨level, nl, mf, .dict (ngramFitDict level nl corpus), none⟩ := by
  have aux : ∀ (c : List Inst) (d0 : List (String × Nat)) (inst0 : Option (List (List Nat))),
      ngramFitAll ⟨level, nl, mf, .dict d0, inst0⟩ c =
        .ok ⟨level, nl, mf, .dict (c.foldl (fun d i => ngramAccum level nl (ngramNeedle level i.raw i.frog) d) d0), inst0⟩ := by
    intro c
    induction c with
    | nil => intro d0 inst0; rfl
    | cons i rest ih =>
        intro d0 inst0
        have hstep : ngramFitAll ⟨level, nl, mf, .dict d0, inst0⟩ (i :: rest) =
            ngramFitAll ⟨level, nl, mf, .dict (ngramAccum level nl (ngramNeedle level i.raw i.frog) d0), inst0⟩ rest := rfl
        rw [hstep, ih]
        rfl
  exact aux corpus [] none

/-! ## The stable descending sort of close_fit -/

/-- Decomposition of one insertion: the new pair lands after the elements of
greater or equal value and before the first strictly smaller one. -/
theorem insertDesc_decomp (p : String × Nat) (acc : List (String × Nat)) :
    ∃ l1 l2, acc = l1 ++ l2 ∧ insertDesc p acc = l1 ++ p :: l2 ∧
      (∀ q ∈ l1, p.2 ≤ q.2) ∧ (∀ q0 t, l2 = q0 :: t → q0.2 < p.2) := by
  induction acc with
  | nil =>
      exact ⟨[], [], rfl, rfl, by simp, by intro q0 t h; cases h⟩
  | cons q rest ih =>
      by_cases hpq : p.2 ≤ q.2
      · obtain ⟨l1, l2, hacc, hins, hge, hlt⟩ := ih
        refine ⟨q :: l1, l2, by rw [hacc]; rfl, ?_, ?_, hlt⟩
        · show (if p.2 ≤ q.2 then q :: insertDesc p rest else p :: q :: rest) = _
          rw [if_pos hpq, hins]
          rfl
        · intro x hx
          rcases List.mem_cons.mp hx with rfl | hx2
          · exact hpq
          · exact hge x hx2
      · refine ⟨[], q :: rest, rfl, ?_, by simp, ?_⟩
        · show (if p.2 ≤ q.2 then q :: insertDesc p rest else p :: q :: rest) = _
          rw [if_neg hpq]
          rfl
        · intro q0 t h
          cases h
          exact Nat.lt_of_not_le hpq

/-- Insertion permutes to consing. -/
theorem insertDesc_perm (p : String × Nat) (acc : List (String × Nat)) :
    (insertDesc p acc).Perm (p :: acc) := by
  induction acc with
  | nil => exact List.Perm.refl _
  | cons q rest ih =>
      by_cases hpq : p.2 ≤ q.2
      · show List.Perm (if p.2 ≤ q.2 then q :: insertDesc p rest else p :: q :: rest) _
        rw [if_pos hpq]
        exact (ih.cons q).trans (List.Perm.swap p q rest)
      · show List.Perm (if p.2 ≤ q.2 then q :: insertDesc p rest else p :: q :: rest) _
        rw [if_neg hpq]

/-- The close_fit sort permutes the dict items. -/
theorem sortDescByVal_perm (d : List (String × Nat)) : (sortDescByVal d).Perm d := by
  have aux : ∀ (l acc : List (String × Nat)),
      (l.foldl (fun acc p => insertDesc p acc) acc).Perm (acc ++ l) := by
    intro l
    induction l with
    | nil => intro acc; simp
    | cons p rest ih =>
        intro acc
        have h1 := ih (insertDesc p acc)
        have h2 : (insertDesc p acc ++ rest).Perm ((p :: acc) ++ rest) :=
          List.Perm.append_right rest (insertDesc_perm p acc)
        have h3 : ((p :: acc) ++ rest).Perm (acc ++ p :: rest) := by
          simpa using List.perm_middle.symm
        exact (h1.trans h2).trans h3
  simpa using aux d []

/-- Insertion preserves descending order. -/
theorem insertDesc_sortedD {p : String × Nat} {acc : List (String × Nat)}
    (h : SortedD acc) : SortedD (insertDesc p acc) := by
  induction acc with
  | nil => simp [insertDesc, SortedD]
  | cons q rest ih =>
      have hq := (List.pairwise_cons.mp h).1
      have htl := (List.pairwise_cons.mp h).2
      by_cases hpq : p.2 ≤ q.2
      · show SortedD (if p.2 ≤ q.2 then q :: insertDesc p rest else p :: q :: rest)
        rw [if_pos hpq]
        refine List.pairwise_cons.mpr ⟨?_, ih htl⟩
        intro x hx
        have hx2 : x ∈ p :: rest := (insertDesc_perm p rest).subset hx
        rcases List.mem_cons.mp hx2 with rfl | hx3
        · exact hpq
        · exact hq x hx3
      · show SortedD (if p.2 ≤ q.2 then q :: insertDesc p rest else p :: q :: rest)
        rw [if_neg hpq]
        refine List.pairwise_cons.mpr ⟨?_, h⟩
        intro x hx
        rcases List.mem_cons.mp hx with rfl | hx2
        · exact Nat.le_of_lt (Nat.lt_of_not_le hpq)
        · exact le_trans (hq x hx2) (Nat.le_of_lt (Nat.lt_of_not_le hpq))

/-- The close_fit sort is descending by stored value. -/
theorem sortDescByVal_sortedD (d : List (String × Nat)) : SortedD (sortDescByVal d) := by
  have aux : ∀ (l acc : List (String × Nat)), SortedD acc →
      SortedD (l.foldl (fun acc p => insertDesc p acc) acc) := by
    intro l
    induction l with
    | nil => intro acc h; exact h
    | cons p rest ih => intro acc h; exact ih _ (insertDesc_sortedD h)
  exact aux d [] (by simp [SortedD])

/-- Stability of one insertion: restricted to any fixed value v, insertion
appends the new pair after the earlier pairs of that value. -/
theorem filter_insertDesc (v : Nat) (p : String × Nat) (acc : List (String × Nat))
    (h : SortedD acc) :
    (insertDesc p acc).filter (fun q => q.2 == v) =
      if p.2 == v then acc.filter (fun q => q.2 == v) ++ [p]
      else acc.filter (fun q => q.2 == v) := by
  obtain ⟨l1, l2, hacc, hins, hge, hlt⟩ := insertDesc_decomp p acc
  subst hacc
  rw [hins]
  by_cases hv : (p.2 == v) = true
  · rw [if_pos hv]
    have hall2 : ∀ q ∈ l2, q.2 < p.2 := by
      cases l2 with
      | nil => intro q hq; simp at hq
      | cons q0 t =>
          intro q hq
          have h0 : q0.2 < p.2 := hlt q0 t rfl
          rcases List.mem_cons.mp hq with rfl | hq2
          · exact h0
          · have hsl : SortedD (q0 :: t) := h.sublist (List.sublist_append_right l1 _)
            exact lt_of_le_of_lt ((List.pairwise_cons.mp hsl).1 q hq2) h0
    have hl2 : l2.filter (fun q => q.2 == v) = [] := by
      rw [List.filter_eq_nil_iff]
      intro q hq
      have hlt2 : q.2 < p.2 := hall2 q hq
      have hpv : p.2 = v := by simpa using hv
      simp only [beq_iff_eq]
      omega
    simp [List.filter_append, List.filter_cons, hv, hl2]
  · rw [if_neg hv]
    simp [List.filter_append, List.filter_cons, hv]

/-- Stability of the whole sort: restricted to any fixed value, the sort
output lists exactly the input pairs of that value, in input order. -/
theorem filter_sortDescByVal (v : Nat) (d : List (String × Nat)) :
    (sortDescByVal d).filter (fun q => q.2 == v) = d.filter (fun q => q.2 == v) := by
  have aux : ∀ (l acc : List (String × Nat)), SortedD acc →
      (l.foldl (fun acc p => insertDesc p acc) acc).filter (fun q => q.2 == v) =
        acc.filter (fun q => q.2 == v) ++ l.filter (fun q => q.2 == v) := by
    intro l
    induction l with
    | nil => intro acc h; simp
    | cons p rest ih =>
        intro acc h
        have h1 := ih (insertDesc p acc) (insertDesc_sortedD h)
        have h2 := filter_insertDesc v p acc h
        rw [List.foldl_cons, h1, h2]
        by_cases hv : (p.2 == v) = true
        · rw [if_pos hv]
          simp [List.filter_cons, hv]
        · rw [if_neg hv]
          simp [List.filter_cons, hv]
  simpa using aux d [] (by simp [SortedD])

/-- With distinct keys, looking a stored pair up returns its stored value. -/
theorem dget_of_mem {d : List (String × Nat)} (hnd : (keysOf d).Nodup)
    {p : String × Nat} (hp : p ∈ d) : dget d p.1 = p.2 := by
  induction d with
  | nil => simp at hp
  | cons q rest ih =>
      have hnd2 := List.nodup_cons.mp (show (q.1 :: keysOf rest).Nodup from hnd)
      rcases List.mem_cons.mp hp with rfl | hp2
      · have hfind : List.find? (fun x => x.1 == p.1) (p :: rest) = some p :=
          List.find?_cons_of_pos rest (by simp)
        unfold dget
        rw [hfind]
      · have hq : ¬(q.1 == p.1) = true := by
          intro hbeq
          have heq : q.1 = p.1 := by simpa using hbeq
          have hmem : p.1 ∈ keysOf rest := List.mem_map.mpr ⟨p, hp2, rfl⟩
          exact hnd2.1 (heq ▸ hmem)
        have hfind : List.find? (fun x => x.1 == p.1) (q :: rest) =
            List.find? (fun x => x.1 == p.1) rest :=
          List.find?_cons_of_neg rest hq
        unfold dget
        rw [hfind]
        exact ih hnd2.2 hp2

/-- C3 amended: after fit on a corpus with max_features k, close_fit leaves
a vocabulary of size at most k that is a subset of the observed n-gram keys,
ordered by descending stored count, where fit stores for each key its
frequency in the most recent instance containing it (dict.update replaces
counts), with ties kept in dict insertion order (the sort is stable: for
each count value, the kept keys are a prefix of the dict keys of that
count, in dict order). -/
theorem claim3_amended (level : String) (nl : List Nat) (k : Nat) (corpus : List Inst)
    (st1 st2 : NgramsState) (fs : List String)
    (h1 : ngramFitAll (Ngrams.mkInit level nl (some k)) corpus = .ok st1)
    (h2 : Ngrams.close_fit st1 = .ok st2)
    (h3 : st2.feats = .strlist fs) :
    fs.length ≤ k ∧
    (∀ f ∈ fs, f ∈ ngramObserved level nl corpus) ∧
    List.Pairwise (fun a b => dget (ngramFitDict level nl corpus) b ≤ dget (ngramFitDict level nl corpus) a) fs ∧
    (∀ v : Nat, fs.filter (fun f => dget (ngramFitDict level nl corpus) f == v) <+:
      ((ngramFitDict level nl corpus).filter (fun p => p.2 == v)).map Prod.fst) := by
  have hshape := ngramFitAll_mkInit level nl (some k) corpus
  rw [h1] at hshape
  have hst1 : st1 = ⟨level, nl, some k, .dict (ngramFitDict level nl corpus), none⟩ :=
    Except.ok.inj hshape
  subst hst1
  have hclose : Ngrams.close_fit (⟨level, nl, some k, .dict (ngramFitDict level nl corpus), none⟩ : NgramsState) =
      .ok ⟨level, nl, some k, .strlist (((sortDescByVal (ngramFitDict level nl corpus)).map Prod.fst).take k), none⟩ := rfl
  rw [hclose] at h2
  have hst2 : st2 = ⟨level, nl, some k, .strlist (((sortDescByVal (ngramFitDict level nl corpus)).map Prod.fst).take k), none⟩ :=
    (Except.ok.inj h2).symm
  subst hst2
  have hfs : ((sortDescByVal (ngramFitDict level nl corpus)).map Prod.fst).take k = fs :=
    FeatsObj.strlist.inj h3
  subst hfs
  have hnd := nodup_keysOf_ngramFitDict level nl corpus
  refine ⟨List.length_take_le k _, ?_, ?_, ?_⟩
  · intro f hf
    have hf1 : f ∈ (sortDescByVal (ngramFitDict level nl corpus)).map Prod.fst :=
      List.take_subset k _ hf
    obtain ⟨p, hp, rfl⟩ := List.mem_map.mp hf1
    have hpD : p ∈ ngramFitDict level nl corpus :=
      (sortDescByVal_perm (ngramFitDict level nl corpus)).subset hp
    have hkey : p.1 ∈ keysOf (ngramFitDict level nl corpus) :=
      List.mem_map.mpr ⟨p, hpD, rfl⟩
    rcases mem_keysOf_ngramFitDict corpus hkey with h | h
    · simp [keysOf] at h
    · exact h
  · have hpw0 := sortDescByVal_sortedD (ngramFitDict level nl corpus)
    have hpw1 : List.Pairwise
        (fun a b : String × Nat => dget (ngramFitDict level nl corpus) b.1 ≤ dget (ngramFitDict level nl corpus) a.1)
        (sortDescByVal (ngramFitDict level nl corpus)) := by
      refine hpw0.imp_of_mem ?_
      intro a b ha hb hr
      rw [dget_of_mem hnd ((sortDescByVal_perm _).subset ha),
          dget_of_mem hnd ((sortDescByVal_perm _).subset hb)]
      exact hr
    have hpw2 : List.Pairwise
        (fun a b : String => dget (ngramFitDict level nl corpus) b ≤ dget (ngramFitDict level nl corpus) a)
        ((sortDescByVal (ngramFitDict level nl corpus)).map Prod.fst) :=
      (List.pairwise_map).mpr hpw1
    exact List.Pairwise.sublist (List.take_sublist k _) hpw2
  · intro v
    have hpref : (((sortDescByVal (ngramFitDict level nl corpus)).map Prod.fst).take k) <+:
        ((sortDescByVal (ngramFitDict level nl corpus)).map Prod.fst) := List.take_prefix k _
    have hpf := List.IsPrefix.filter (fun f => dget (ngramFitDict level nl corpus) f == v) hpref
    have hcomm : ((sortDescByVal (ngramFitDict level nl corpus)).map Prod.fst).filter
          (fun f => dget (ngramFitDict level nl corpus) f == v) =
        ((sortDescByVal (ngramFitDict level nl corpus)).filter (fun p => p.2 == v)).map Prod.fst := by
      rw [List.filter_map]
      congr 1
      refine List.filter_congr ?_
      intro p hp
      have hval := dget_of_mem hnd ((sortDescByVal_perm _).subset hp)
      simp [Function.comp, hval]
    rw [hcomm, filter_sortDescByVal v _] at hpf
    exact hpf

/-- Witness for claim3_amended on corpus2 with max_features 3. -/
theorem claim3_witness :
    (["token-", "token-b", "token-a"] : List String).length ≤ 3 ∧
    (∀ f ∈ (["token-", "token-b", "token-a"] : List String), f ∈ ngramObserved "token" [1] corpus2) ∧
    List.Pairwise (fun a b => dget (ngramFitDict "token" [1] corpus2) b ≤ dget (ngramFitDict "token" [1] corpus2) a) ["token-", "token-b", "token-a"] ∧
    (∀ v : Nat, (["token-", "token-b", "token-a"] : List String).filter (fun f => dget (ngramFitDict "token" [1] corpus2) f == v) <+:
      ((ngramFitDict "token" [1] corpus2).filter (fun p => p.2 == v)).map Prod.fst) :=
  claim3_amended "token" [1] 3 corpus2
    ⟨"token", [1], some 3, .dict [("token-", 2), ("token-a", 1), ("token-b", 2)], none⟩
    stC2closed ["token-", "token-b", "token-a"] (by decide) (by decide) rfl
